import Mathlib

/-!
Verification of the contentmark/cli discovery-and-validation core.

The definitions below are a shallow embedding of `src/validator.ts`
(schema loading, `validate`, the hand-written structural pass) and
`src/url-checker.ts` (`checkWebsite`, `checkWellKnown`, `checkHTMLLink`,
`checkHTTPHeaders`, `analyzeManifest`, `batchCheck`).  JavaScript values
are modelled by `JSValue`; host primitives (the WHATWG URL parser,
`fetch`, regular-expression scans, the JSON-Schema engine) are modelled
either by explicit oracle parameters or by small executable models, each
documented at its definition.
-/

namespace ContentMark

/-- Model of a parsed JSON value (the result of a successful `JSON.parse`).
Numbers are modelled as integers; none of the verified code paths depends
on fractional numeric values. -/
inductive JSValue where
  | null : JSValue
  | bool : Bool → JSValue
  | num : Int → JSValue
  | str : String → JSValue
  | arr : List JSValue → JSValue
  | obj : List (String × JSValue) → JSValue
deriving Inhabited

/-- Property lookup `v[k]` on a JavaScript value that is not `null`/`undefined`:
an object yields its field (or `undefined`, modelled as `none`); primitives and
arrays yield `undefined` for the field names used by this code base.
Call sites where the source may dereference `null` (which throws in
JavaScript) handle the `null` case explicitly before calling this. -/
def fieldOf : JSValue → String → Option JSValue
  | .obj fields, k => (fields.find? (fun p => p.1 = k)).map (fun p => p.2)
  | _, _ => none

/-- Whether a value is the JSON `null` (whose property accesses throw). -/
def JSValue.isNull : JSValue → Bool
  | .null => true
  | _ => false

/-- JavaScript truthiness of a value. -/
def truthy : JSValue → Bool
  | .null => false
  | .bool b => b
  | .num n => n != 0
  | .str s => s ≠ ""
  | .arr _ => true
  | .obj _ => true

/-- Truthiness of a possibly-`undefined` value (`undefined` is falsy). -/
def truthyO : Option JSValue → Bool
  | none => false
  | some v => truthy v

/-- `v?.k` — optional chaining: `null`/`undefined` short-circuit to
`undefined`, any other value is accessed with `fieldOf`. -/
def optField : Option JSValue → String → Option JSValue
  | none, _ => none
  | some .null, _ => none
  | some v, k => fieldOf v k

/-- `data.k1?.k2` as it appears in the source (plain access on `data`,
optional chain on the intermediate value). -/
def optChain (data : JSValue) (k1 k2 : String) : Option JSValue :=
  optField (fieldOf data k1) k2

/-- One-level string coercion for array elements (sufficient for this model). -/
def jsToStringShallow : JSValue → String
  | .null => ""
  | .bool b => if b then "true" else "false"
  | .num n => toString n
  | .str s => s
  | .arr _ => ""
  | .obj _ => "[object Object]"

/-- Model of JavaScript string coercion (`String(v)`), used when a
non-string value reaches `new URL(...)`.  The exact text for arrays and
objects follows the JavaScript rules closely enough for the properties
proved here, none of which depends on coercion of non-string values. -/
def jsToString : JSValue → String
  | .null => "null"
  | .bool b => if b then "true" else "false"
  | .num n => toString n
  | .str s => s
  | .arr xs => String.intercalate "," (xs.map jsToStringShallow)
  | .obj _ => "[object Object]"

/-- `v.length` as read by the source: defined for strings and arrays,
`undefined` (`none`) otherwise — and `undefined > 200` is false in
JavaScript, which the call site mirrors. -/
def jsLength : JSValue → Option Nat
  | .str s => some s.length
  | .arr xs => some xs.length
  | _ => none

/-- Valid first character of a URI scheme. -/
def schemeHeadOk (c : Char) : Bool := c.isAlpha

/-- Valid later character of a URI scheme. -/
def schemeTailOk (c : Char) : Bool :=
  c.isAlpha || c.isDigit || c = '+' || c = '-' || c = '.'

/-- Split a character list on a separator character (the groups between
separators, like `String.splitOn` with a one-character separator). -/
def splitOnChar (sep : Char) : List Char → List (List Char)
  | [] => [[]]
  | c :: rest =>
    match splitOnChar sep rest with
    | [] => [[]]
    | g :: gs => if c = sep then [] :: g :: gs else (c :: g) :: gs

/-- Executable model of the WHATWG URL parser used by `new URL(s)` with no
base: the string parses iff it begins with a URI scheme followed by a colon.
This is the model used for concrete witnesses and counterexamples; every
general theorem is stated over an arbitrary `urlOk : String → Bool`, so
only the behaviour on the concrete strings appearing in witnesses matters:
`"https://example.com"` parses, `"not-a-url"` and `"/relative/path"` do not. -/
def urlOkImpl (s : String) : Bool :=
  match splitOnChar ':' s.data with
  | [] => false
  | [_] => false
  | pre :: _ :: _ =>
    match pre with
    | [] => false
    | c :: rest => schemeHeadOk c && rest.all schemeTailOk

/-- The semantic-versioning test `/^\d+\.\d+\.\d+$/` from the structural
pass: exactly three non-empty runs of digits separated by dots. -/
def semverMatch (s : String) : Bool :=
  match splitOnChar '.' s.data with
  | [a, b, c] =>
    !a.isEmpty && !b.isEmpty && !c.isEmpty &&
    a.all Char.isDigit && b.all Char.isDigit && c.all Char.isDigit
  | _ => false

/-- First-match lookup in an association list, modelling `Map.get`. -/
def mapGet {α : Type} (m : List (String × α)) (k : String) : Option α :=
  (m.find? (fun p => p.1 = k)).map (fun p => p.2)

/-- `Map.set`: replace the value in place if the key is present (keeping
its original position, as a JavaScript `Map` does), otherwise append. -/
def jsMapSet {α : Type} (m : List (String × α)) (k : String) (v : α) : List (String × α) :=
  if m.any (fun p => p.1 = k) then
    m.map (fun p => if p.1 = k then (k, v) else p)
  else
    m ++ [(k, v)]

/-- `o === "s"` — strict equality of a possibly-undefined value with a
string literal. -/
def isStrEq (o : Option JSValue) (s : String) : Bool :=
  match o with
  | some (.str t) => t = s
  | _ => false

/-- `o === false` — strict equality with the boolean `false`. -/
def isFalseLit (o : Option JSValue) : Bool :=
  match o with
  | some (.bool b) => !b
  | _ => false

/-- `o === true` — strict equality with the boolean `true`. -/
def isTrueLit (o : Option JSValue) : Bool :=
  match o with
  | some (.bool b) => b
  | _ => false

/-- `data.k1?.k2?.k3` — plain access then two optional chains. -/
def optChain3 (data : JSValue) (k1 k2 k3 : String) : Option JSValue :=
  optField (optField (fieldOf data k1) k2) k3

/-!  ### The validator (`src/validator.ts`)

`ValidationResult` mirrors the exported interface.  The structural pass
(`addCustomValidation`, `validateURLs`, `checkLogicalConsistency`) mutates
`result.errors` / `result.warnings` in place and can raise a `TypeError`
on ill-shaped data; that is modelled by step functions returning the
strings pushed so far together with an optional thrown message — on a
throw, entries already pushed are kept, later steps never run, and
`validate`'s outer catch appends one final error. -/

structure ValidationResult where
  valid : Bool
  errors : List String
  warnings : List String
  suggestions : List String
  manifest : Option JSValue := none

/-- Sequencing of two mutation-with-possible-throw steps: the second runs
only when the first did not throw; pushed strings accumulate. -/
def andThenE (a : List String × Option String) (b : Unit → List String × Option String) :
    List String × Option String :=
  match a with
  | (es, some m) => (es, some m)
  | (es, none) => let r := b (); (es ++ r.1, r.2)

/-- The `version` block of `addCustomValidation`.  A truthy non-string
`version` makes `data.version.match(...)` throw a `TypeError` (only
strings have `.match`). -/
def versionErrors (data : JSValue) : List String × Option String :=
  let v := fieldOf data "version"
  if !truthyO v then (["Missing required field: version"], none)
  else
    match v with
    | some (.str s) =>
      (if semverMatch s then []
       else ["Version must follow semantic versioning (e.g., \"1.0.0\")"], none)
    | _ => ([], some "data.version.match is not a function")

/-- The `siteName` block of `addCustomValidation`.  `data.siteName.length`
is `undefined` for values without a `length` property, and
`undefined > 200` is false, so no error and no throw in that case. -/
def siteNameErrors (data : JSValue) : List String :=
  let v := fieldOf data "siteName"
  if !truthyO v then ["Missing required field: siteName"]
  else
    match jsLength (v.getD .null) with
    | some n => if n > 200 then ["siteName must be 200 characters or less"] else []
    | none => []

/-- The `defaultUsagePolicy` block: each of the four policy members must
have `typeof ... === "boolean"`; the checks accumulate in source order. -/
def policyErrors (data : JSValue) : List String :=
  let p := fieldOf data "defaultUsagePolicy"
  if !truthyO p then ["Missing required field: defaultUsagePolicy"]
  else
    ["canSummarize", "canTrain", "canQuote", "mustAttribute"].filterMap fun f =>
      match fieldOf (p.getD .null) f with
      | some (.bool _) => none
      | _ => some ("defaultUsagePolicy." ++ f ++ " must be a boolean")

/-- `new Date(v)` never raises in JavaScript: an unparseable argument
yields an Invalid Date object, not an exception. -/
def jsNewDateThrows (_ : JSValue) : Bool := false

/-- The `lastModified` block: the source wraps `new Date(data.lastModified)`
in a try/catch whose catch pushes a timestamp error, but since `new Date`
never throws (`jsNewDateThrows`), that branch is dead code. -/
def lastModifiedErrors (data : JSValue) : List String :=
  let v := fieldOf data "lastModified"
  if !truthyO v then ["Missing required field: lastModified"]
  else if jsNewDateThrows (v.getD .null) then
    ["lastModified must be a valid ISO 8601 timestamp"]
  else []

/-- `checkURL` from `validateURLs`: `new URL(url)` throws exactly when the
(string-coerced) value fails the URL parser, and the catch pushes the
field-path error. -/
def checkURLMsg (urlOk : String → Bool) (u : JSValue) (fieldName : String) : List String :=
  if urlOk (jsToString u) then [] else [fieldName ++ " must be a valid absolute URL"]

/-- The `data.feeds.forEach` loop of `validateURLs`: each element's `url`
is checked when truthy; a `null` element makes `feed.url` throw. -/
def goFeeds (urlOk : String → Bool) : List JSValue → Nat → List String × Option String
  | [], _ => ([], none)
  | f :: rest, i =>
    if f.isNull then ([], some "Cannot read properties of null")
    else
      let here :=
        match fieldOf f "url" with
        | some u => if truthy u then checkURLMsg urlOk u ("feeds[" ++ toString i ++ "].url") else []
        | none => []
      let r := goFeeds urlOk rest (i + 1)
      (here ++ r.1, r.2)

/-- The feeds part of `validateURLs`: guarded by
`data.feeds && Array.isArray(data.feeds)` — an array is always truthy and
anything else is skipped. -/
def feedsURLErrors (urlOk : String → Bool) (data : JSValue) : List String × Option String :=
  match fieldOf data "feeds" with
  | some (.arr xs) => goFeeds urlOk xs 0
  | _ => ([], none)

/-- The `data.monetization.services.forEach` loop: like `goFeeds` with the
services field path. -/
def goServices (urlOk : String → Bool) : List JSValue → Nat → List String × Option String
  | [], _ => ([], none)
  | s :: rest, i =>
    if s.isNull then ([], some "Cannot read properties of null")
    else
      let here :=
        match fieldOf s "url" with
        | some u =>
          if truthy u then checkURLMsg urlOk u ("monetization.services[" ++ toString i ++ "].url")
          else []
        | none => []
      let r := goServices urlOk rest (i + 1)
      (here ++ r.1, r.2)

/-- The tip-jar check of `validateURLs` (guarded by truthiness). -/
def tipJarErrors (urlOk : String → Bool) (mv : JSValue) : List String :=
  match fieldOf mv "tipJar" with
  | some t => if truthy t then checkURLMsg urlOk t "monetization.tipJar" else []
  | none => []

/-- The consultation booking-URL check of `validateURLs` (reached through
`consultation?.bookingUrl`, guarded by truthiness). -/
def bookingUrlErrors (urlOk : String → Bool) (mv : JSValue) : List String :=
  match optField (fieldOf mv "consultation") "bookingUrl" with
  | some b => if truthy b then checkURLMsg urlOk b "monetization.consultation.bookingUrl" else []
  | none => []

/-- The `monetization.services` step: a truthy non-array value has no
`.forEach` and throws; an array runs the loop. -/
def servicesStep (urlOk : String → Bool) (mv : JSValue) : List String × Option String :=
  match fieldOf mv "services" with
  | some sv =>
    if truthy sv then
      match sv with
      | .arr xs => goServices urlOk xs 0
      | _ => ([], some "data.monetization.services.forEach is not a function")
    else ([], none)
  | none => ([], none)

/-- The monetization part of `validateURLs`: tip jar, consultation booking
URL, then the services loop (whose throw keeps the earlier pushes). -/
def monetizationURLErrors (urlOk : String → Bool) (data : JSValue) : List String × Option String :=
  let m := fieldOf data "monetization"
  if !truthyO m then ([], none)
  else
    let mv := m.getD .null
    let sv := servicesStep urlOk mv
    (tipJarErrors urlOk mv ++ bookingUrlErrors urlOk mv ++ sv.1, sv.2)

/-- `validateURLs` (lines 811-845 of the validator): the feeds checks, then
the monetization checks, with a throw cutting the pass short. -/
def validateURLsE (urlOk : String → Bool) (data : JSValue) : List String × Option String :=
  andThenE (feedsURLErrors urlOk data) (fun _ => monetizationURLErrors urlOk data)

/-- The single error `checkLogicalConsistency` can push:
`access.type === "authenticated"` without a truthy `access.loginUrl`. -/
def consistencyErrors (data : JSValue) : List String :=
  if isStrEq (optChain data "access" "type") "authenticated" &&
      !truthyO (optChain data "access" "loginUrl") then
    ["access.loginUrl is required when type is \"authenticated\""]
  else []

/-- The warnings `checkLogicalConsistency` pushes, in source order:
conflicting summarize/discovery settings, missing attribution template,
consultation without booking URL.  None of these checks can throw. -/
def consistencyWarnings (data : JSValue) : List String :=
  (if isFalseLit (optChain data "defaultUsagePolicy" "canSummarize") &&
      isStrEq (optChain data "visibility" "aiDiscovery") "enhanced" then
    ["Conflicting settings: canSummarize is false but aiDiscovery is enhanced"]
   else []) ++
  (if truthyO (optChain data "defaultUsagePolicy" "mustAttribute") &&
      !truthyO (optChain data "defaultUsagePolicy" "attributionTemplate") then
    ["Attribution required but no attributionTemplate provided"]
   else []) ++
  (if truthyO (optChain3 data "monetization" "consultation" "available") &&
      !truthyO (optChain3 data "monetization" "consultation" "bookingUrl") then
    ["Consultation marked as available but no bookingUrl provided"]
   else [])

/-- `addCustomValidation` (with `validateURLs` and `checkLogicalConsistency`):
returns the errors pushed, the warnings pushed, and the thrown message if a
`TypeError` interrupted the pass.  A `null` document throws at the very
first access `data.version`. -/
def addCustomValidationE (urlOk : String → Bool) (data : JSValue) :
    List String × List String × Option String :=
  if data.isNull then ([], [], some "Cannot read properties of null")
  else
    let s1 := versionErrors data
    match s1.2 with
    | some m => (s1.1, [], some m)
    | none =>
      let errs1 := s1.1 ++ siteNameErrors data ++ policyErrors data ++ lastModifiedErrors data
      let s2 := validateURLsE urlOk data
      match s2.2 with
      | some m => (errs1 ++ s2.1, [], some m)
      | none => (errs1 ++ s2.1 ++ consistencyErrors data, consistencyWarnings data, none)

/-- `addSuggestions`: advisory entries only, pushed in source order; none
of its accesses can throw (all are guarded by truthiness or `?.`). -/
def addSuggestions (data : JSValue) : List String :=
  (let m := fieldOf data "monetization"
   if !truthyO m then ["Consider adding monetization options to benefit from AI traffic"]
   else if !truthyO (fieldOf (m.getD .null) "tipJar") &&
       !truthyO (optField (fieldOf (m.getD .null) "consultation") "available") then
     ["Consider adding a tip jar for easy monetization"]
   else []) ++
  (let vis := fieldOf data "visibility"
   if !truthyO vis then
     ["Consider adding visibility settings to optimize AI discoverability"]
   else
     let pq := fieldOf (vis.getD .null) "preferredQueries"
     if !truthyO pq || jsLength (pq.getD .null) == some 0 then
       ["Add preferredQueries to improve AI recommendation targeting"]
     else []) ++
  (if isTrueLit (optChain data "defaultUsagePolicy" "canTrain") then
    ["Consider whether allowing AI training aligns with your content strategy"]
   else []) ++
  (let d := fieldOf data "description"
   if !truthyO d ||
       (match jsLength (d.getD .null) with
        | some n => n < 50
        | none => false) then
     ["Add a detailed description to help AI understand your content focus"]
   else []) ++
  (let f := fieldOf data "feeds"
   if !truthyO f || jsLength (f.getD .null) == some 0 then
     ["Consider adding content feeds for better AI integration"]
   else []) ++
  (if truthyO (optChain3 data "monetization" "consultation" "available") &&
      !truthyO (fieldOf data "businessOptimization") then
    ["Add businessOptimization to target specific audiences and service areas"]
   else []) ++
  (if isStrEq (optChain data "visibility" "aiDiscovery") "enhanced" &&
      !truthyO (fieldOf data "aiGuidance") then
    ["Add aiGuidance to control how AI presents your content"]
   else [])

/-!  ### Schema loading (`loadSchema`, `getBuiltInSchema`)

The schema itself is an opaque JSON document (`JSValue`); the JSON-Schema
engine (ajv) is an oracle parameter of `validate`.  The process-wide
`schemaCache` is a `Map` from URL to schema, threaded explicitly.
`loadSchema` also returns the list of URLs it fetched, so that "performs
no network fetch" is a statement about that trace. -/

/-- Outcome of `fetch(url)` in `loadSchema`: a response with `ok` status
whose `.json()` may itself fail to parse, a response with a non-ok status
(the source throws `HTTP <status>: <statusText>`), or a rejected fetch. -/
inductive SchemaFetchOutcome where
  | httpOk (jsonBody : Except String JSValue)
  | httpErr (status : Nat) (statusText : String)
  | netFail (msg : String)

/-- `DEFAULT_SCHEMA_URL` from the validator. -/
def DEFAULT_SCHEMA_URL : String := "https://schema.contentmark.org/v1/manifest.json"

/-- JavaScript `a || b` on optional strings: an absent or empty string
falls through to the alternative. -/
def strOr (o : Option String) (d : String) : String :=
  match o with
  | some s => if s = "" then d else s
  | none => d

/-- `schemaUrl || this.customSchemaUrl || DEFAULT_SCHEMA_URL`: the per-call
override, then the constructor-supplied URL, then the default endpoint. -/
def resolveSchemaUrl (override ctor : Option String) : String :=
  strOr override (strOr ctor DEFAULT_SCHEMA_URL)

/-- `getBuiltInSchema`: the literal minimal fallback schema. -/
def builtInSchema : JSValue :=
  .obj [
    ("type", .str "object"),
    ("required", .arr [.str "version", .str "siteName", .str "defaultUsagePolicy", .str "lastModified"]),
    ("properties", .obj [
      ("version", .obj [("type", .str "string"), ("pattern", .str "^\\d+\\.\\d+\\.\\d+$")]),
      ("siteName", .obj [("type", .str "string"), ("minLength", .num 1), ("maxLength", .num 200)]),
      ("defaultUsagePolicy", .obj [
        ("type", .str "object"),
        ("required", .arr [.str "canSummarize", .str "canTrain", .str "canQuote", .str "mustAttribute"]),
        ("properties", .obj [
          ("canSummarize", .obj [("type", .str "boolean")]),
          ("canTrain", .obj [("type", .str "boolean")]),
          ("canQuote", .obj [("type", .str "boolean")]),
          ("mustAttribute", .obj [("type", .str "boolean")])])]),
      ("lastModified", .obj [("type", .str "string"), ("format", .str "date-time")])])]

/-- `loadSchema` (lines 658-679 of the validator): resolve the source URL,
consult the cache, on a miss fetch; any failure (non-ok status, body that
is not JSON, rejected fetch) lands in the catch, which substitutes the
built-in schema; whichever schema results is cached under the resolved
URL.  Returns (schema, new cache, fetched URLs). -/
def loadSchema (fetchO : String → SchemaFetchOutcome) (ctor : Option String)
    (cache : List (String × JSValue)) (override : Option String) :
    JSValue × List (String × JSValue) × List String :=
  let url := resolveSchemaUrl override ctor
  match mapGet cache url with
  | some s => (s, cache, [])
  | none =>
    match fetchO url with
    | .httpOk (.ok schema) => (schema, jsMapSet cache url schema, [url])
    | .httpOk (.error _) => (builtInSchema, jsMapSet cache url builtInSchema, [url])
    | .httpErr _ _ => (builtInSchema, jsMapSet cache url builtInSchema, [url])
    | .netFail _ => (builtInSchema, jsMapSet cache url builtInSchema, [url])

/-- `validate` (lines 681-727 of the validator).  Parameters model the
host facilities: `urlOk` the URL parser, `ajv` the JSON-Schema engine
(given the resolved schema and the data, it yields the already formatted
`"<path>: <message>"` strings the source pushes), `fetchO` the network,
`ctor` the constructor-supplied schema URL.  `doc` is the outcome of
`JSON.parse(content)`.  Returns the result and the updated schema cache.
The schema is resolved before the parse, exactly as in the source. -/
def validate (urlOk : String → Bool) (ajv : JSValue → JSValue → List String)
    (fetchO : String → SchemaFetchOutcome) (ctor : Option String)
    (cache : List (String × JSValue)) (doc : Except String JSValue)
    (override : Option String) : ValidationResult × List (String × JSValue) :=
  let ls := loadSchema fetchO ctor cache override
  match doc with
  | .error msg =>
    ({ valid := false, errors := ["Invalid JSON: " ++ msg], warnings := [],
       suggestions := [], manifest := none }, ls.2.1)
  | .ok data =>
    let schemaErrs := ajv ls.1 data
    match addCustomValidationE urlOk data with
    | (cerrs, cwarns, some m) =>
      ({ valid := false, errors := schemaErrs ++ cerrs ++ ["Validation failed: " ++ m],
         warnings := cwarns, suggestions := [], manifest := some data }, ls.2.1)
    | (cerrs, cwarns, none) =>
      let errors := schemaErrs ++ cerrs
      ({ valid := errors.isEmpty, errors := errors, warnings := cwarns,
         suggestions := addSuggestions data, manifest := some data }, ls.2.1)

/-!  ### The discovery checker (`src/url-checker.ts`)

Network and host primitives are oracle parameters: `Net` maps a request
(method and URL) to either a response or a rejection message (`fetch`
throwing), and `JSHost` bundles the WHATWG URL operations and the
regular-expression scans of strategy 2 and 3.  The validator invoked on a
located document is the oracle `vd : String → ValidationResult`
(`this.validator.validate`), keeping the checker's proofs independent of
the schema cache. -/

structure HttpReq where
  method : String
  url : String

structure HttpResponse where
  status : Nat
  statusText : String
  body : String
  linkHeader : Option String := none

/-- `response.ok`: status in the 200-299 range. -/
def respOk (r : HttpResponse) : Bool :=
  200 ≤ r.status && r.status ≤ 299

/-- The network oracle: `fetch` either resolves to a response or rejects
with an error message. -/
def Net : Type := HttpReq → Except String HttpResponse

/-- Host primitives of the checker.
`parseURL` models `new URL(s)` without a base (`none` when it throws,
otherwise the serialized URL); `resolve rel base` models
`new URL(rel, base).toString()` with a previously parsed base (total: with
a well-formed base this call does not throw for the inputs considered);
`linkTags` models `html.match(linkRegex)` (a null result is `[]`);
`hrefOf` models `linkMatch.match(hrefRegex)`; `headerMatch` models the
`Link` header regular-expression match. -/
structure JSHost where
  parseURL : String → Option String
  resolve : String → String → String
  linkTags : String → List String
  hrefOf : String → Option String
  headerMatch : String → Option String

structure CheckResult where
  found : Bool
  method : Option String := none
  foundAt : Option String := none
  discoveryMethod : Option String := none
  manifestUrl : Option String := none
  httpStatus : Option Nat := none
  valid : Option Bool := none
  errors : Option (List String) := none
  manifest : Option JSValue := none

/-- `checkWellKnown` (lines 73-123): GET the well-known path; a 2xx
response is found with the validator's result embedded; a 404 is silently
not found; any other status is found-but-invalid with an error derived
from the status; a rejected fetch is not found with the rejection message
recorded. -/
def checkWellKnown (host : JSHost) (net : Net) (vd : String → ValidationResult)
    (base : String) : CheckResult :=
  let manifestUrl := host.resolve "/.well-known/contentmark.json" base
  match net ⟨"GET", manifestUrl⟩ with
  | .error msg => { found := false, errors := some [msg] }
  | .ok r =>
    if respOk r then
      let v := vd r.body
      { found := true, method := some "well-known", foundAt := some manifestUrl,
        discoveryMethod := some "well-known", manifestUrl := some manifestUrl,
        httpStatus := some r.status, valid := some v.valid, errors := some v.errors,
        manifest := v.manifest }
    else if r.status = 404 then { found := false }
    else
      { found := true, foundAt := some manifestUrl, discoveryMethod := some "well-known",
        manifestUrl := some manifestUrl, httpStatus := some r.status, valid := some false,
        errors := some ["HTTP " ++ toString r.status ++ ": " ++ r.statusText] }

/-- The `for (const linkMatch of linkMatches)` loop of `checkHTMLLink`: a
match without an extractable href, a rejected manifest fetch, or a non-ok
manifest response all continue with the next match; an ok response returns
found with the validator's result. -/
def htmlLinkLoop (host : JSHost) (net : Net) (vd : String → ValidationResult)
    (base : String) : List String → CheckResult
  | [] => { found := false }
  | lm :: rest =>
    match host.hrefOf lm with
    | none => htmlLinkLoop host net vd base rest
    | some href =>
      let manifestUrl := if href.startsWith "http" then href else host.resolve href base
      match net ⟨"GET", manifestUrl⟩ with
      | .error _ => htmlLinkLoop host net vd base rest
      | .ok r =>
        if respOk r then
          let v := vd r.body
          { found := true, method := some "html-link", foundAt := some base,
            discoveryMethod := some "html-link", manifestUrl := some manifestUrl,
            httpStatus := some r.status, valid := some v.valid, errors := some v.errors,
            manifest := v.manifest }
        else htmlLinkLoop host net vd base rest

/-- `checkHTMLLink` (lines 125-200): GET the page; a rejected fetch is not
found with the message recorded; a non-ok page or a page without matching
link elements is not found; otherwise scan the matches. -/
def checkHTMLLink (host : JSHost) (net : Net) (vd : String → ValidationResult)
    (base : String) : CheckResult :=
  match net ⟨"GET", base⟩ with
  | .error msg => { found := false, errors := some [msg] }
  | .ok r =>
    if !respOk r then { found := false }
    else
      match host.linkTags r.body with
      | [] => { found := false }
      | ms => htmlLinkLoop host net vd base ms

/-- `checkHTTPHeaders` (lines 202-271): HEAD the origin; inspect the
`Link` header; fetch the referenced URL; only an ok response is found —
a rejected manifest fetch returns not found (the inner catch), and a
non-ok manifest response falls through to not found. -/
def checkHTTPHeaders (host : JSHost) (net : Net) (vd : String → ValidationResult)
    (base : String) : CheckResult :=
  match net ⟨"HEAD", base⟩ with
  | .error msg => { found := false, errors := some [msg] }
  | .ok r =>
    if !respOk r then { found := false }
    else
      match r.linkHeader with
      | none => { found := false }
      | some lh =>
        match host.headerMatch lh with
        | none => { found := false }
        | some m =>
          let manifestUrl := if m.startsWith "http" then m else host.resolve m base
          match net ⟨"GET", manifestUrl⟩ with
          | .error _ => { found := false }
          | .ok mr =>
            if respOk mr then
              let v := vd mr.body
              { found := true, method := some "http-header", foundAt := some base,
                discoveryMethod := some "http-header", manifestUrl := some manifestUrl,
                httpStatus := some mr.status, valid := some v.valid, errors := some v.errors,
                manifest := v.manifest }
            else { found := false }

/-- The strategy chain of `checkWebsite` (lines 36-63), over the first
strategy's result and the later strategies as thunks (the source only
awaits a later strategy after the earlier ones reported not found):
return the first result with `found`, else aggregate the recorded error
lists (`if (result.errors)` — an absent list contributes nothing). -/
def tryStrategies (r1 : CheckResult) (s2 s3 : Unit → CheckResult) : CheckResult :=
  if r1.found then r1
  else
    let e1 := r1.errors.getD []
    let r2 := s2 ()
    if r2.found then r2
    else
      let e2 := r2.errors.getD []
      let r3 := s3 ()
      if r3.found then r3
      else { found := false, errors := some (e1 ++ e2 ++ (r3.errors.getD [])) }

/-- The URL normalization shared by `checkWebsite` and `validateURL`:
prepend `https://` when no scheme prefix is present. -/
def normalizeUrl (url : String) : String :=
  if url.startsWith "http://" || url.startsWith "https://" then url
  else "https://" ++ url

/-- `checkWebsite` (lines 26-71): normalize, parse the base URL (a throw
is caught into a not-found result carrying the message), then run the
three strategies in fixed order. -/
def checkWebsite (host : JSHost) (net : Net) (vd : String → ValidationResult)
    (url : String) : CheckResult :=
  let u := normalizeUrl url
  match host.parseURL u with
  | none => { found := false, errors := some ["Invalid URL: " ++ u] }
  | some base =>
    tryStrategies (checkWellKnown host net vd base)
      (fun _ => checkHTMLLink host net vd base)
      (fun _ => checkHTTPHeaders host net vd base)

/-!  ### `analyzeManifest` and `batchCheck` -/

structure BasicInfo where
  siteName : Option JSValue
  description : Option JSValue
  version : Option JSValue
  lastModified : Option JSValue

structure PolicySummary where
  canSummarize : Option JSValue
  canTrain : Option JSValue
  canQuote : Option JSValue
  mustAttribute : Option JSValue
  attributionTemplate : Option JSValue

structure MonetizationSummary where
  hasMonetization : Bool
  tipJar : Option JSValue
  consultation : Option JSValue
  services : Option JSValue
  subscription : Option JSValue

structure OptimizationSummary where
  hasVisibility : Bool
  aiDiscovery : Option JSValue
  priorityContent : Option JSValue
  boostScore : Option JSValue
  expertiseAreas : Option JSValue
  preferredQueries : Option JSValue

structure ManifestAnalysis where
  basicInfo : BasicInfo
  policies : PolicySummary
  monetization : MonetizationSummary
  optimization : OptimizationSummary

/-- `analyzeManifest` (lines 273-317), over `checkWebsite` as an oracle.
When nothing was found, or the manifest is absent or falsy, it throws the
descriptive not-found error.  Otherwise it projects the manifest into the
four summary groups — but the `policies` group dereferences
`manifest.defaultUsagePolicy.canSummarize` without a guard, so a manifest
whose `defaultUsagePolicy` is absent (or `null`) raises a `TypeError`
instead (`.error` with a different message); the `monetization` and
`optimization` groups use optional chaining and cannot throw. -/
def analyzeManifest (checkW : String → CheckResult) (url : String) :
    Except String ManifestAnalysis :=
  let result := checkW url
  if !result.found || !truthyO result.manifest then
    .error "No ContentMark manifest found"
  else
    let manifest := result.manifest.getD .null
    match fieldOf manifest "defaultUsagePolicy" with
    | none => .error "Cannot read properties of undefined"
    | some .null => .error "Cannot read properties of null"
    | some dup =>
      .ok {
        basicInfo := {
          siteName := fieldOf manifest "siteName",
          description := fieldOf manifest "description",
          version := fieldOf manifest "version",
          lastModified := fieldOf manifest "lastModified" },
        policies := {
          canSummarize := fieldOf dup "canSummarize",
          canTrain := fieldOf dup "canTrain",
          canQuote := fieldOf dup "canQuote",
          mustAttribute := fieldOf dup "mustAttribute",
          attributionTemplate := fieldOf dup "attributionTemplate" },
        monetization := {
          hasMonetization := truthyO (fieldOf manifest "monetization"),
          tipJar := optChain manifest "monetization" "tipJar",
          consultation := optChain manifest "monetization" "consultation",
          services := optChain manifest "monetization" "services",
          subscription := optChain manifest "monetization" "subscription" },
        optimization := {
          hasVisibility := truthyO (fieldOf manifest "visibility"),
          aiDiscovery := optChain manifest "visibility" "aiDiscovery",
          priorityContent := optChain manifest "visibility" "priorityContent",
          boostScore := optChain manifest "visibility" "boostScore",
          expertiseAreas := optChain manifest "visibility" "expertiseAreas",
          preferredQueries := optChain manifest "visibility" "preferredQueries" } }

/-- `chunkArray` body, with explicit fuel mirroring the loop counter: the
source's `for (let i = 0; i < array.length; i += size)` makes at most
`array.length` passes when `size ≥ 1` (and does not terminate for
`size = 0`, a case `batchCheck` never produces because of its `|| 5`
default). -/
def chunkArrayAux {α : Type} : Nat → List α → Nat → List (List α)
  | 0, _, _ => []
  | _, [], _ => []
  | fuel + 1, l, size => l.take size :: chunkArrayAux fuel (l.drop size) size

/-- `chunkArray` (lines 363-369). -/
def chunkArray {α : Type} (l : List α) (size : Nat) : List (List α) :=
  chunkArrayAux l.length l size

/-- The per-URL conversion in `batchCheck`: a thrown error while checking
one URL becomes a `found:false` result carrying the error message. -/
def toCheckResult : Except String CheckResult → CheckResult
  | .ok r => r
  | .error m => { found := false, errors := some [m] }

/-- `batchCheck` (lines 319-361), over the per-URL check as an oracle
(`check` models `this.checkWebsite`, whose promise may reject):
`options.concurrency || 5` sizes the chunks, each chunk's results are
entered into the `Map` in chunk order, a chunk's URLs all complete before
the next chunk starts.  The progress callback and the inter-chunk delay
have no effect on the returned mapping and are not modelled. -/
def batchCheck (check : String → Except String CheckResult)
    (concurrency : Option Nat) (urls : List String) : List (String × CheckResult) :=
  let c := match concurrency with
    | some n => if n = 0 then 5 else n
    | none => 5
  (chunkArray urls c).foldl
    (fun acc chunk => chunk.foldl (fun acc u => jsMapSet acc u (toCheckResult (check u))) acc)
    []

/-!  ### Specification-side definitions

These definitions follow the wording of the specification claims (not the
source); the refinement theorems below compare them with the embedded
source functions. -/

/-- The well-known strategy as the specification describes it, case by
case: a network-level failure is not found with the message recorded; a
404 is not found with nothing recorded; a success (2xx) response is found
with the validator's full result embedded and validity taken from the
validator; any other non-success status is found but invalid, with the
error derived from the HTTP status itself. -/
def checkWellKnownSpec (host : JSHost) (net : Net) (vd : String → ValidationResult)
    (base : String) : CheckResult :=
  let manifestUrl := host.resolve "/.well-known/contentmark.json" base
  match net ⟨"GET", manifestUrl⟩ with
  | .error msg => { found := false, errors := some [msg] }
  | .ok r =>
    if r.status = 404 then { found := false }
    else if respOk r then
      { found := true, method := some "well-known", foundAt := some manifestUrl,
        discoveryMethod := some "well-known", manifestUrl := some manifestUrl,
        httpStatus := some r.status, valid := some (vd r.body).valid,
        errors := some (vd r.body).errors, manifest := (vd r.body).manifest }
    else
      { found := true, foundAt := some manifestUrl, discoveryMethod := some "well-known",
        manifestUrl := some manifestUrl, httpStatus := some r.status, valid := some false,
        errors := some ["HTTP " ++ toString r.status ++ ": " ++ r.statusText] }

/-- The property names under `properties` of a schema object (used to
state what the built-in fallback schema covers). -/
def schemaPropertyKeys (v : JSValue) : List String :=
  match fieldOf v "properties" with
  | some (.obj ps) => ps.map (fun p => p.1)
  | _ => []

/-- The `(field path, value)` pairs of the feeds elements whose `url`
member is set (truthy), with their array indices, as the specification
describes the covered URL fields. -/
def feedURLFields : List JSValue → Nat → List (String × JSValue)
  | [], _ => []
  | f :: rest, i =>
    (match fieldOf f "url" with
     | some u => if truthy u then [("feeds[" ++ toString i ++ "].url", u)] else []
     | none => []) ++ feedURLFields rest (i + 1)

/-- Likewise for the services list. -/
def serviceURLFields : List JSValue → Nat → List (String × JSValue)
  | [], _ => []
  | s :: rest, i =>
    (match fieldOf s "url" with
     | some u =>
       if truthy u then [("monetization.services[" ++ toString i ++ "].url", u)] else []
     | none => []) ++ serviceURLFields rest (i + 1)

/-- The covered URL fields under `feeds`. -/
def feedsURLFieldsOf (data : JSValue) : List (String × JSValue) :=
  match fieldOf data "feeds" with
  | some (.arr xs) => feedURLFields xs 0
  | _ => []

/-- The covered URL fields under `monetization`. -/
def monetizationURLFieldsOf (data : JSValue) : List (String × JSValue) :=
  let m := fieldOf data "monetization"
  if !truthyO m then []
  else
    let mv := m.getD .null
    (match fieldOf mv "tipJar" with
     | some t => if truthy t then [("monetization.tipJar", t)] else []
     | none => []) ++
    (match optField (fieldOf mv "consultation") "bookingUrl" with
     | some b => if truthy b then [("monetization.consultation.bookingUrl", b)] else []
     | none => []) ++
    (match fieldOf mv "services" with
     | some (.arr xs) => serviceURLFields xs 0
     | _ => [])

/-- All URL fields the structural pass covers, with their exact field
paths, in the order the pass visits them: `feeds[i].url`,
`monetization.tipJar`, `monetization.consultation.bookingUrl`,
`monetization.services[i].url` — and nothing else (in particular not
`access.loginUrl`, `access.subscriptionUrl`, `monetization.subscription.url`
or `renderHints.callToAction.url`). -/
def urlFieldsOf (data : JSValue) : List (String × JSValue) :=
  feedsURLFieldsOf data ++ monetizationURLFieldsOf data

/-- The suffix every URL-check error message carries. -/
def urlMsgSuffix : String := " must be a valid absolute URL"

/-- The error produced for one covered URL field whose value does not
parse as an absolute URL. -/
def urlFieldError (urlOk : String → Bool) (p : String × JSValue) : Option String :=
  if urlOk (jsToString p.2) then none else some (p.1 ++ urlMsgSuffix)

/-- No-throw shape condition for the feeds loop: when `feeds` is an array,
none of its elements is `null` (a `null` element makes `feed.url` throw). -/
def feedsSafe (data : JSValue) : Bool :=
  match fieldOf data "feeds" with
  | some (.arr xs) => xs.all (fun x => !x.isNull)
  | _ => true

/-- No-throw shape condition for the services loop: when `monetization` is
truthy and its `services` member truthy, that member is an array without
`null` elements (otherwise `.forEach` or `service.url` throws). -/
def servicesSafe (data : JSValue) : Bool :=
  let m := fieldOf data "monetization"
  if !truthyO m then true
  else
    match fieldOf (m.getD .null) "services" with
    | some sv =>
      if truthy sv then
        match sv with
        | .arr xs => xs.all (fun x => !x.isNull)
        | _ => false
      else true
    | none => true

/-- No-throw shape condition for `validateURLs` as a whole. -/
def urlPassSafe (data : JSValue) : Bool :=
  feedsSafe data && servicesSafe data

/-- No-throw shape condition for the `version` block: the field, when
truthy, is a string (a truthy non-string has no `.match` and throws). -/
def versionFieldSafe (data : JSValue) : Bool :=
  match fieldOf data "version" with
  | some (.str _) => true
  | some v => !truthy v
  | none => true

/-- No-throw shape condition for the whole structural pass: a manifest
document (a non-null value whose `version` field, if truthy, is a string,
and whose feeds/services lists are well-shaped). -/
def customPassSafe (data : JSValue) : Bool :=
  !data.isNull && versionFieldSafe data && urlPassSafe data

/-- The conflicting-settings warning text. -/
def conflictingSettingsMsg : String :=
  "Conflicting settings: canSummarize is false but aiDiscovery is enhanced"

/-- The timestamp error text of the dead catch branch. -/
def timestampErrMsg : String := "lastModified must be a valid ISO 8601 timestamp"

/-- The fixed error strings the structural pass can push (every other
pushed error is some field path followed by `urlMsgSuffix`).  The
timestamp message is deliberately not among them: its push site is dead. -/
def customFixedMsgs : List String :=
  ["Missing required field: version",
   "Version must follow semantic versioning (e.g., \"1.0.0\")",
   "Missing required field: siteName",
   "siteName must be 200 characters or less",
   "Missing required field: defaultUsagePolicy",
   "defaultUsagePolicy.canSummarize must be a boolean",
   "defaultUsagePolicy.canTrain must be a boolean",
   "defaultUsagePolicy.canQuote must be a boolean",
   "defaultUsagePolicy.mustAttribute must be a boolean",
   "Missing required field: lastModified",
   "access.loginUrl is required when type is \"authenticated\""]

/-- A fully valid manifest except that `access.loginUrl` is not a URL:
the structural pass does not check it (claim C1's counterexample input). -/
def manifestBadLoginUrl : JSValue :=
  .obj [
    ("version", .str "1.0.0"),
    ("siteName", .str "Test"),
    ("defaultUsagePolicy", .obj [
      ("canSummarize", .bool true), ("canTrain", .bool false),
      ("canQuote", .bool true), ("mustAttribute", .bool true),
      ("attributionTemplate", .str "From Test")]),
    ("access", .obj [("type", .str "authenticated"), ("loginUrl", .str "not-a-url")]),
    ("lastModified", .str "2025-07-22T15:30:00Z")]

/-- A fully valid manifest except that `lastModified` is not parseable as
a date (claim C5's failing input). -/
def manifestBadDate : JSValue :=
  .obj [
    ("version", .str "1.0.0"),
    ("siteName", .str "Test"),
    ("defaultUsagePolicy", .obj [
      ("canSummarize", .bool true), ("canTrain", .bool false),
      ("canQuote", .bool true), ("mustAttribute", .bool true),
      ("attributionTemplate", .str "From Test")]),
    ("lastModified", .str "definitely-not-a-date")]

/-- A valid manifest with `canSummarize: false` and
`aiDiscovery: "enhanced"` (claim C8's witness input). -/
def manifestConflict : JSValue :=
  .obj [
    ("version", .str "1.0.0"),
    ("siteName", .str "Test"),
    ("defaultUsagePolicy", .obj [
      ("canSummarize", .bool false), ("canTrain", .bool false),
      ("canQuote", .bool true), ("mustAttribute", .bool true),
      ("attributionTemplate", .str "From Test")]),
    ("visibility", .obj [("aiDiscovery", .str "enhanced")]),
    ("lastModified", .str "2025-07-22T15:30:00Z")]

/-- A manifest with URL fields of each covered kind, one valid and two
invalid (claim C1's witness input). -/
def manifestMixedUrls : JSValue :=
  .obj [
    ("version", .str "1.0.0"),
    ("siteName", .str "Test"),
    ("feeds", .arr [.obj [("type", .str "blog"), ("url", .str "not-a-url"), ("title", .str "T")]]),
    ("defaultUsagePolicy", .obj [
      ("canSummarize", .bool true), ("canTrain", .bool false),
      ("canQuote", .bool true), ("mustAttribute", .bool true)]),
    ("monetization", .obj [
      ("tipJar", .str "https://example.com/tips"),
      ("services", .arr [.obj [("name", .str "S"), ("url", .str "/relative/path")]])]),
    ("lastModified", .str "2025-07-22T15:30:00Z")]

/-!  ### Theorems -/

/-- Claim C4: for every response to the well-known-location fetch, a
success response yields found with the body's validation result embedded
(validity taken from the validator); a 404 yields not found with no error
recorded; any other non-success status yields found but invalid with the
error derived from the HTTP status, not the validator; a network-level
failure yields not found with the failure message recorded.  Stated as an
exact refinement of the strategy by its specification-side case analysis. -/
theorem claim4_well_known_cases (host : JSHost) (net : Net)
    (vd : String → ValidationResult) (base : String) :
    checkWellKnown host net vd base = checkWellKnownSpec host net vd base := by
  simp only [checkWellKnown, checkWellKnownSpec]
  cases h : net ⟨"GET", host.resolve "/.well-known/contentmark.json" base⟩ with
  | error msg => simp [h]
  | ok r =>
    cases hro : respOk r with
    | true =>
      have hne : r.status ≠ 404 := by
        simp only [respOk, Bool.and_eq_true, decide_eq_true_eq] at hro
        omega
      simp [h, hro, hne]
    | false =>
      by_cases h404 : r.status = 404 <;> simp [h, hro, h404]

/-- Claim C6: a document text that fails to parse yields an invalid result
whose error list is exactly the one parse-failure entry, whose warning and
suggestion lists are empty and whose manifest field is absent — no
schema-conformance, structural, consistency or suggestion check runs
(their outputs do not appear in the result, whatever the oracles do). -/
theorem claim6_parse_failure_result (urlOk : String → Bool)
    (ajv : JSValue → JSValue → List String) (fetchO : String → SchemaFetchOutcome)
    (ctor : Option String) (cache : List (String × JSValue)) (override : Option String)
    (msg : String) :
    (validate urlOk ajv fetchO ctor cache (.error msg) override).1 =
      { valid := false, errors := ["Invalid JSON: " ++ msg], warnings := [],
        suggestions := [], manifest := none } := by
  rfl

/-- Claim C2: `checkWebsite` runs the three strategies in the fixed order
well-known, HTML-link, HTTP-header; the first strategy reporting found is
returned as is, and the later strategies are never consulted (the result
is the same whatever they would have returned); when no strategy reports
found, the result is not-found with the strategies' recorded error lists
aggregated in order; and a base URL that fails to parse short-circuits
with the thrown message. -/
theorem claim2_discovery_order (host : JSHost) (net : Net)
    (vd : String → ValidationResult) (url : String) (r1 : CheckResult)
    (s2 s3 s2' s3' : Unit → CheckResult) :
    (∀ base, host.parseURL (normalizeUrl url) = some base →
      checkWebsite host net vd url =
        tryStrategies (checkWellKnown host net vd base)
          (fun _ => checkHTMLLink host net vd base)
          (fun _ => checkHTTPHeaders host net vd base)) ∧
    (host.parseURL (normalizeUrl url) = none →
      checkWebsite host net vd url =
        { found := false, errors := some ["Invalid URL: " ++ normalizeUrl url] }) ∧
    (r1.found = true → tryStrategies r1 s2 s3 = r1) ∧
    (r1.found = true → tryStrategies r1 s2 s3 = tryStrategies r1 s2' s3') ∧
    (r1.found = false → (s2 ()).found = true →
      tryStrategies r1 s2 s3 = s2 () ∧ tryStrategies r1 s2 s3 = tryStrategies r1 s2 s3') ∧
    (r1.found = false → (s2 ()).found = false → (s3 ()).found = true →
      tryStrategies r1 s2 s3 = s3 ()) ∧
    (r1.found = false → (s2 ()).found = false → (s3 ()).found = false →
      tryStrategies r1 s2 s3 =
        { found := false,
          errors := some (r1.errors.getD [] ++ (s2 ()).errors.getD [] ++ (s3 ()).errors.getD []) }) := by
  refine ⟨?_, ?_, ?_, ?_, ?_, ?_, ?_⟩
  · intro base hb
    simp [checkWebsite, hb]
  · intro hb
    simp [checkWebsite, hb]
  · intro h1
    simp [tryStrategies, h1]
  · intro h1
    simp [tryStrategies, h1]
  · intro h1 h2
    constructor <;> simp [tryStrategies, h1, h2]
  · intro h1 h2 h3
    simp [tryStrategies, h1, h2, h3]
  · intro h1 h2 h3
    simp [tryStrategies, h1, h2, h3]

/-- Looking up a key in the in-place-replaced list finds the new value. -/
theorem mapGet_replace_self {α : Type} (m : List (String × α)) (k : String) (v : α)
    (h : m.any (fun p => p.1 = k) = true) :
    mapGet (m.map (fun p => if p.1 = k then (k, v) else p)) k = some v := by
  induction m with
  | nil => simp at h
  | cons p rest ih =>
    by_cases hp : p.1 = k
    · simp [mapGet, hp]
    · simp only [List.any_cons, Bool.or_eq_true, decide_eq_true_eq] at h
      rcases h with h | h
      · exact absurd h hp
      · simp only [List.map_cons, if_neg hp, mapGet]
        rw [List.find?_cons_of_neg _ (by simpa using hp)]
        exact ih h

/-- In-place replacement of one key leaves lookups of other keys alone. -/
theorem mapGet_replace_ne {α : Type} (m : List (String × α)) (k x : String) (v : α)
    (hx : x ≠ k) :
    mapGet (m.map (fun p => if p.1 = k then (k, v) else p)) x = mapGet m x := by
  induction m with
  | nil => rfl
  | cons p rest ih =>
    by_cases hp : p.1 = k
    · have h1 : ¬((k, v).1 = x) := by simpa using fun hh => hx hh.symm
      have h2 : ¬(p.1 = x) := by rw [hp]; simpa using fun hh => hx hh.symm
      simp only [List.map_cons, if_pos hp, mapGet]
      rw [List.find?_cons_of_neg _ (by simpa using h1),
        List.find?_cons_of_neg _ (by simpa using h2)]
      exact ih
    · by_cases hq : p.1 = x
      · simp only [List.map_cons, if_neg hp, mapGet]
        rw [List.find?_cons_of_pos _ (by simpa using hq),
          List.find?_cons_of_pos _ (by simpa using hq)]
      · simp only [List.map_cons, if_neg hp, mapGet]
        rw [List.find?_cons_of_neg _ (by simpa using hq),
          List.find?_cons_of_neg _ (by simpa using hq)]
        exact ih

/-- Appending a fresh key makes it found (when it was absent before). -/
theorem mapGet_append_self {α : Type} (m : List (String × α)) (k : String) (v : α)
    (h : m.any (fun p => p.1 = k) = false) :
    mapGet (m ++ [(k, v)]) k = some v := by
  have hnone : m.find? (fun p => decide (p.1 = k)) = none := by
    rw [List.find?_eq_none]
    intro p hp
    have h2 := List.any_eq_false.mp h p hp
    simpa using h2
  simp [mapGet, List.find?_append, hnone]

/-- Appending one key leaves lookups of other keys alone. -/
theorem mapGet_append_ne {α : Type} (m : List (String × α)) (k x : String) (v : α)
    (hx : x ≠ k) : mapGet (m ++ [(k, v)]) x = mapGet m x := by
  simp only [mapGet, List.find?_append]
  cases hf : m.find? (fun p => decide (p.1 = x)) with
  | some p => simp
  | none =>
    have : ¬(k = x) := fun hh => hx hh.symm
    simp [this]

/-- `Map.get` after `Map.set` with the same key. -/
theorem mapGet_jsMapSet_self {α : Type} (m : List (String × α)) (k : String) (v : α) :
    mapGet (jsMapSet m k v) k = some v := by
  unfold jsMapSet
  cases h : m.any (fun p => p.1 = k) with
  | true => simpa [h] using mapGet_replace_self m k v h
  | false => simpa [h] using mapGet_append_self m k v h

/-- `Map.get` after `Map.set` with a different key. -/
theorem mapGet_jsMapSet_ne {α : Type} (m : List (String × α)) (k x : String) (v : α)
    (hx : x ≠ k) : mapGet (jsMapSet m k v) x = mapGet m x := by
  unfold jsMapSet
  cases h : m.any (fun p => p.1 = k) with
  | true => simpa [h] using mapGet_replace_ne m k x v hx
  | false => simpa [h] using mapGet_append_ne m k x v hx

/-- Claim C3: schema resolution consults the process-wide cache first; on
a miss it fetches from the URL chosen with precedence per-call override,
then constructor URL, then default endpoint; any fetch failure falls back
to the built-in minimal schema covering only the four mandatory top-level
fields and the four mandatory policy booleans; the resolved schema
(fetched or fallback) is cached under the requested URL, so a repeated
call with the same URL performs no fetch (an empty fetch trace). -/
theorem claim3_schema_resolution (fetchO : String → SchemaFetchOutcome)
    (ctor : Option String) (cache : List (String × JSValue)) (override : Option String) :
    (∀ u, override = some u → u ≠ "" → resolveSchemaUrl override ctor = u) ∧
    (∀ c, override = none → ctor = some c → c ≠ "" →
      resolveSchemaUrl override ctor = c) ∧
    (override = none → ctor = none → resolveSchemaUrl override ctor = DEFAULT_SCHEMA_URL) ∧
    (∀ s, mapGet cache (resolveSchemaUrl override ctor) = some s →
      loadSchema fetchO ctor cache override = (s, cache, [])) ∧
    (∀ s, mapGet cache (resolveSchemaUrl override ctor) = none →
      fetchO (resolveSchemaUrl override ctor) = .httpOk (.ok s) →
      loadSchema fetchO ctor cache override =
        (s, jsMapSet cache (resolveSchemaUrl override ctor) s, [resolveSchemaUrl override ctor])) ∧
    (mapGet cache (resolveSchemaUrl override ctor) = none →
      (∀ s, fetchO (resolveSchemaUrl override ctor) ≠ .httpOk (.ok s)) →
      loadSchema fetchO ctor cache override =
        (builtInSchema, jsMapSet cache (resolveSchemaUrl override ctor) builtInSchema,
          [resolveSchemaUrl override ctor])) ∧
    (loadSchema fetchO ctor (loadSchema fetchO ctor cache override).2.1 override =
      ((loadSchema fetchO ctor cache override).1,
       (loadSchema fetchO ctor cache override).2.1, [])) ∧
    (fieldOf builtInSchema "required" =
      some (.arr [.str "version", .str "siteName", .str "defaultUsagePolicy", .str "lastModified"]) ∧
     schemaPropertyKeys builtInSchema =
      ["version", "siteName", "defaultUsagePolicy", "lastModified"] ∧
     optField (optField (fieldOf builtInSchema "properties") "defaultUsagePolicy") "required" =
      some (.arr [.str "canSummarize", .str "canTrain", .str "canQuote", .str "mustAttribute"])) := by
  refine ⟨?_, ?_, ?_, ?_, ?_, ?_, ?_, ?_, ?_, ?_⟩
  · intro u hu hne
    simp [resolveSchemaUrl, strOr, hu, hne]
  · intro c ho hc hne
    simp [resolveSchemaUrl, strOr, ho, hc, hne]
  · intro ho hc
    simp [resolveSchemaUrl, strOr, ho, hc]
  · intro s hs
    simp [loadSchema, hs]
  · intro s hs hf
    simp [loadSchema, hs, hf]
  · intro hs hf
    simp only [loadSchema, hs]
    cases hfo : fetchO (resolveSchemaUrl override ctor) with
    | httpOk body =>
      cases body with
      | ok s => exact absurd hfo (hf s)
      | error e => rfl
    | httpErr st tx => rfl
    | netFail m => rfl
  · show loadSchema fetchO ctor (loadSchema fetchO ctor cache override).2.1 override = _
    have hcached : mapGet (loadSchema fetchO ctor cache override).2.1
        (resolveSchemaUrl override ctor) = some (loadSchema fetchO ctor cache override).1 := by
      simp only [loadSchema]
      cases hc : mapGet cache (resolveSchemaUrl override ctor) with
      | some s => simp [hc]
      | none =>
        cases hfo : fetchO (resolveSchemaUrl override ctor) with
        | httpOk body =>
          cases body with
          | ok s => simp [hc, hfo, mapGet_jsMapSet_self]
          | error e => simp [hc, hfo, mapGet_jsMapSet_self]
        | httpErr st tx => simp [hc, hfo, mapGet_jsMapSet_self]
        | netFail m => simp [hc, hfo, mapGet_jsMapSet_self]
    conv_lhs => rw [loadSchema]
    simp [hcached]
  · rfl
  · rfl
  · rfl

/-- The schema resolved by `loadSchema` ends up retrievable from the cache
it returns, under the resolved source URL. -/
theorem loadSchema_caches (fetchO : String → SchemaFetchOutcome) (ctor : Option String)
    (cache : List (String × JSValue)) (override : Option String) :
    mapGet (loadSchema fetchO ctor cache override).2.1 (resolveSchemaUrl override ctor) =
      some (loadSchema fetchO ctor cache override).1 := by
  simp only [loadSchema]
  cases hc : mapGet cache (resolveSchemaUrl override ctor) with
  | some s => simp [hc]
  | none =>
    cases hfo : fetchO (resolveSchemaUrl override ctor) with
    | httpOk body =>
      cases body with
      | ok s => simp [hc, hfo, mapGet_jsMapSet_self]
      | error e => simp [hc, hfo, mapGet_jsMapSet_self]
    | httpErr st tx => simp [hc, hfo, mapGet_jsMapSet_self]
    | netFail m => simp [hc, hfo, mapGet_jsMapSet_self]

/-- Claim C10 counterexample: with the resolved source URL already cached,
a parse-failing call returns the cache unchanged — the schema resolution
is a cache hit and performs no mutation, against the claim that every
parse-failing call mutates the cache. -/
theorem claim10_warm_cache_unchanged :
    (validate urlOkImpl (fun _ _ => []) (fun _ => .netFail "offline") none
        [(DEFAULT_SCHEMA_URL, builtInSchema)] (.error "Unexpected token") none).2 =
      [(DEFAULT_SCHEMA_URL, builtInSchema)] := rfl

/-- Claim C10 (amended): `validate` resolves the schema before parsing, so
a call whose document fails to parse still populates the schema cache:
when the resolved source URL was not yet cached, the returned cache holds
an entry for it (the resolved schema) and therefore differs from the
cache passed in, even though the result is the parse-failure result;
a call whose resolved URL is already cached leaves the cache unchanged. -/
theorem claim10_cache_populated_on_parse_failure (urlOk : String → Bool)
    (ajv : JSValue → JSValue → List String) (fetchO : String → SchemaFetchOutcome)
    (ctor : Option String) (cache : List (String × JSValue)) (override : Option String)
    (msg : String)
    (hmiss : mapGet cache (resolveSchemaUrl override ctor) = none) :
    (validate urlOk ajv fetchO ctor cache (.error msg) override).1 =
      { valid := false, errors := ["Invalid JSON: " ++ msg], warnings := [],
        suggestions := [], manifest := none } ∧
    mapGet (validate urlOk ajv fetchO ctor cache (.error msg) override).2
      (resolveSchemaUrl override ctor) = some (loadSchema fetchO ctor cache override).1 ∧
    (validate urlOk ajv fetchO ctor cache (.error msg) override).2 ≠ cache := by
  have hcache2 : (validate urlOk ajv fetchO ctor cache (.error msg) override).2 =
      (loadSchema fetchO ctor cache override).2.1 := rfl
  refine ⟨rfl, ?_, ?_⟩
  · rw [hcache2]
    exact loadSchema_caches fetchO ctor cache override
  · intro heq
    have h2 := loadSchema_caches fetchO ctor cache override
    rw [← hcache2, heq, hmiss] at h2
    exact Option.noConfusion h2

/-- Claim C10 witness: with an empty cache and an unreachable schema
endpoint, validating an unparseable document caches the built-in fallback
schema under the default URL. -/
theorem claim10_witness :
    (validate urlOkImpl (fun _ _ => []) (fun _ => .netFail "offline") none []
        (.error "Unexpected token") none).1 =
      { valid := false, errors := ["Invalid JSON: Unexpected token"], warnings := [],
        suggestions := [], manifest := none } ∧
    mapGet (validate urlOkImpl (fun _ _ => []) (fun _ => .netFail "offline") none []
        (.error "Unexpected token") none).2 (resolveSchemaUrl none none) =
      some (loadSchema (fun _ => .netFail "offline") none [] none).1 ∧
    (validate urlOkImpl (fun _ _ => []) (fun _ => .netFail "offline") none []
        (.error "Unexpected token") none).2 ≠ [] :=
  claim10_cache_populated_on_parse_failure urlOkImpl (fun _ _ => [])
    (fun _ => .netFail "offline") none [] none "Unexpected token" rfl

/-- Claim C9: when discovery reports found with a parsed (truthy) manifest
whose `defaultUsagePolicy` member is absent, `analyzeManifest` raises a
`TypeError` from the unguarded `manifest.defaultUsagePolicy.canSummarize`
dereference — a different failure than the descriptive not-found error. -/
theorem claim9_analyze_type_error (checkW : String → CheckResult) (url : String)
    (h1 : (checkW url).found = true)
    (h2 : truthyO (checkW url).manifest = true)
    (h3 : fieldOf ((checkW url).manifest.getD .null) "defaultUsagePolicy" = none) :
    analyzeManifest checkW url = .error "Cannot read properties of undefined" ∧
    ("Cannot read properties of undefined" : String) ≠ "No ContentMark manifest found" := by
  constructor
  · simp only [analyzeManifest, h1, h2]
    simp [h3]
  · decide

/-- Claim C9 witness: a check oracle that reports a found manifest with
only a `siteName` makes `analyzeManifest` fail with the `TypeError`
message, not the not-found message. -/
theorem claim9_witness :
    analyzeManifest
        (fun _ => { found := true, manifest := some (.obj [("siteName", .str "x")]) })
        "https://example.com" = .error "Cannot read properties of undefined" :=
  (claim9_analyze_type_error
    (fun _ => { found := true, manifest := some (.obj [("siteName", .str "x")]) })
    "https://example.com" rfl rfl rfl).1

/-- Folding `Map.set` over a list of keys with a deterministic per-key
value: every key of the list maps to its value, other keys are untouched. -/
theorem mapGet_foldl_set {α : Type} (v : String → α) (us : List String)
    (acc : List (String × α)) (x : String) :
    mapGet (us.foldl (fun a u => jsMapSet a u (v u)) acc) x =
      if x ∈ us then some (v x) else mapGet acc x := by
  induction us generalizing acc with
  | nil => simp
  | cons u rest ih =>
    simp only [List.foldl_cons]
    rw [ih]
    by_cases hx : x ∈ rest
    · simp [hx]
    · by_cases hxu : x = u
      · subst hxu
        simp [hx, mapGet_jsMapSet_self]
      · simp [hx, hxu, mapGet_jsMapSet_ne _ _ _ _ hxu]

/-- `Map.set` keys: replacement keeps the key list, insertion appends. -/
theorem keys_jsMapSet {α : Type} (m : List (String × α)) (k : String) (v : α) :
    (jsMapSet m k v).map Prod.fst =
      if m.any (fun p => p.1 = k) then m.map Prod.fst else m.map Prod.fst ++ [k] := by
  unfold jsMapSet
  by_cases h : m.any (fun p => p.1 = k)
  · simp only [h, if_true, List.map_map]
    refine List.map_congr_left ?_
    intro p _
    by_cases hp : p.1 = k
    · simp [hp]
    · simp [hp]
  · simp [h]

/-- Membership in the key list after `Map.set`. -/
theorem mem_keys_jsMapSet {α : Type} (m : List (String × α)) (k x : String) (v : α) :
    x ∈ (jsMapSet m k v).map Prod.fst ↔ x ∈ m.map Prod.fst ∨ x = k := by
  rw [keys_jsMapSet]
  by_cases h : m.any (fun p => p.1 = k)
  · simp only [h, if_true]
    constructor
    · exact Or.inl
    · rintro (hx | rfl)
      · exact hx
      · rcases List.any_eq_true.mp h with ⟨p, hp, hpk⟩
        simp only [decide_eq_true_eq] at hpk
        exact hpk ▸ List.mem_map_of_mem Prod.fst hp
  · simp [h]

/-- `Map.set` preserves distinctness of keys. -/
theorem nodup_keys_jsMapSet {α : Type} (m : List (String × α)) (k : String) (v : α)
    (h : (m.map Prod.fst).Nodup) : ((jsMapSet m k v).map Prod.fst).Nodup := by
  rw [keys_jsMapSet]
  by_cases hk : m.any (fun p => p.1 = k)
  · simpa [hk] using h
  · have hk2 : (m.any fun p => decide (p.1 = k)) = false := Bool.eq_false_iff.mpr hk
    have hnot : k ∉ m.map Prod.fst := by
      intro hmem
      rcases List.mem_map.mp hmem with ⟨p, hp, hpk⟩
      have h3 := List.any_eq_false.mp hk2 p hp
      simp [hpk] at h3
    simp only [hk2, Bool.false_eq_true, if_false]
    rw [List.nodup_append]
    exact ⟨h, List.nodup_singleton k, by simpa using hnot⟩

/-- Folding `Map.set` preserves distinctness of keys. -/
theorem nodup_keys_foldl_set {α : Type} (v : String → α) (us : List String)
    (acc : List (String × α)) (h : (acc.map Prod.fst).Nodup) :
    ((us.foldl (fun a u => jsMapSet a u (v u)) acc).map Prod.fst).Nodup := by
  induction us generalizing acc with
  | nil => simpa using h
  | cons u rest ih =>
    simp only [List.foldl_cons]
    exact ih _ (nodup_keys_jsMapSet _ _ _ h)

/-- Key membership after folding `Map.set`. -/
theorem mem_keys_foldl_set {α : Type} (v : String → α) (us : List String)
    (acc : List (String × α)) (x : String) :
    x ∈ ((us.foldl (fun a u => jsMapSet a u (v u)) acc).map Prod.fst) ↔
      x ∈ us ∨ x ∈ acc.map Prod.fst := by
  induction us generalizing acc with
  | nil => simp
  | cons u rest ih =>
    simp only [List.foldl_cons]
    rw [ih, mem_keys_jsMapSet]
    simp only [List.mem_cons]
    tauto

/-- Flattening the chunks reproduces the original list (when the chunk
size is at least 1 and the fuel covers the length). -/
theorem chunkArrayAux_flatten {α : Type} (fuel : Nat) (l : List α) (size : Nat)
    (hs : 1 ≤ size) (hf : l.length ≤ fuel) : (chunkArrayAux fuel l size).flatten = l := by
  induction fuel generalizing l with
  | zero =>
    have : l = [] := List.eq_nil_of_length_eq_zero (Nat.le_zero.mp hf)
    subst this
    rfl
  | succ n ih =>
    cases l with
    | nil => rfl
    | cons a t =>
      have hlen : ((a :: t).drop size).length ≤ n := by
        simp only [List.length_drop, List.length_cons]
        have hf2 : t.length + 1 ≤ n + 1 := by simpa using hf
        omega
      simp only [chunkArrayAux, List.flatten_cons]
      rw [ih ((a :: t).drop size) hlen]
      exact List.take_append_drop size (a :: t)

/-- `chunkArray` partitions without loss for positive sizes. -/
theorem chunkArray_flatten {α : Type} (l : List α) (size : Nat) (hs : 1 ≤ size) :
    (chunkArray l size).flatten = l :=
  chunkArrayAux_flatten l.length l size hs (Nat.le_refl _)

/-- `batchCheck` behaves as a single pass of insertions over the whole URL
list: the chunked two-level fold equals the flat fold. -/
theorem batchCheck_eq_foldl (check : String → Except String CheckResult)
    (conc : Option Nat) (urls : List String) :
    batchCheck check conc urls =
      urls.foldl (fun a u => jsMapSet a u (toCheckResult (check u))) [] := by
  unfold batchCheck
  have hcs : 1 ≤ (match conc with | some n => if n = 0 then 5 else n | none => 5) := by
    rcases conc with _ | n
    · simp
    · by_cases hn : n = 0
      · simp [hn]
      · simp only [hn, if_false]
        omega
  rw [← List.foldl_flatten, chunkArray_flatten urls _ hcs]

/-- Claim C7: `batchCheck` returns a mapping in which every input URL is a
key exactly once (the key list is duplicate-free and its members are
exactly the input URLs), each bound to the per-URL check result — with a
thrown per-URL error converted to a `found:false` result carrying the
message, never affecting the other URLs. -/
theorem claim7_batch_completeness (check : String → Except String CheckResult)
    (conc : Option Nat) (urls : List String) (u : String) :
    (u ∈ urls →
      mapGet (batchCheck check conc urls) u = some (toCheckResult (check u))) ∧
    (u ∉ urls → mapGet (batchCheck check conc urls) u = none) ∧
    ((batchCheck check conc urls).map Prod.fst).Nodup ∧
    (∀ x, x ∈ (batchCheck check conc urls).map Prod.fst ↔ x ∈ urls) := by
  rw [batchCheck_eq_foldl]
  refine ⟨?_, ?_, ?_, ?_⟩
  · intro hu
    rw [mapGet_foldl_set]
    simp [hu]
  · intro hu
    rw [mapGet_foldl_set]
    simp [hu, mapGet]
  · exact nodup_keys_foldl_set _ _ _ (by simp)
  · intro x
    rw [mem_keys_foldl_set]
    simp

/-- A string with a fixed non-empty suffix differs from any string whose
last character differs from the suffix's. -/
theorem append_ne_of_getLast (s C T : String)
    (h : C.data.getLast?.or s.data.getLast? ≠ T.data.getLast?) : s ++ C ≠ T := by
  intro heq
  have hd : s.data ++ C.data = T.data := by rw [← String.data_append, heq]
  have h2 : (s.data ++ C.data).getLast? = C.data.getLast?.or s.data.getLast? :=
    List.getLast?_append
  rw [hd] at h2
  exact h h2.symm

/-- No string extended with the URL-error suffix equals the
conflicting-settings warning (their last characters differ). -/
theorem urlSuffix_ne_conflict (s : String) : s ++ urlMsgSuffix ≠ conflictingSettingsMsg := by
  apply append_ne_of_getLast
  have h1 : urlMsgSuffix.data.getLast? = some 'L' := by decide
  have h2 : conflictingSettingsMsg.data.getLast? = some 'd' := by decide
  rw [h1, h2]
  intro h
  simp [Option.or] at h

/-- No string extended with the URL-error suffix equals the timestamp
error message (their last characters differ). -/
theorem urlSuffix_ne_timestamp (s : String) : s ++ urlMsgSuffix ≠ timestampErrMsg := by
  apply append_ne_of_getLast
  have h1 : urlMsgSuffix.data.getLast? = some 'L' := by decide
  have h2 : timestampErrMsg.data.getLast? = some 'p' := by decide
  rw [h1, h2]
  intro h
  simp [Option.or] at h

/-- Every error the `version` block pushes is one of the fixed messages. -/
theorem versionErrors_sub (data : JSValue) :
    ∀ e ∈ (versionErrors data).1, e ∈ customFixedMsgs := by
  intro e he
  simp only [versionErrors] at he
  split at he
  · simp only [List.mem_singleton] at he
    subst he
    decide
  · split at he
    · split at he
      · simp at he
      · simp only [List.mem_singleton] at he
        subst he
        decide
    · simp at he

/-- Every error the `siteName` block pushes is one of the fixed messages. -/
theorem siteNameErrors_sub (data : JSValue) :
    ∀ e ∈ siteNameErrors data, e ∈ customFixedMsgs := by
  intro e he
  simp only [siteNameErrors] at he
  split at he
  · simp only [List.mem_singleton] at he
    subst he
    decide
  · split at he
    · split at he
      · simp only [List.mem_singleton] at he
        subst he
        decide
      · simp at he
    · simp at he

/-- Every error the policy block pushes is one of the fixed messages. -/
theorem policyErrors_sub (data : JSValue) :
    ∀ e ∈ policyErrors data, e ∈ customFixedMsgs := by
  intro e he
  simp only [policyErrors] at he
  split at he
  · simp only [List.mem_singleton] at he
    subst he
    decide
  · rcases List.mem_filterMap.mp he with ⟨a, ha, hfa⟩
    have hshape : ∀ v : Option JSValue,
        (match v with
         | some (.bool _) => (none : Option String)
         | _ => some ("defaultUsagePolicy." ++ a ++ " must be a boolean")) = some e →
        e = "defaultUsagePolicy." ++ a ++ " must be a boolean" := by
      intro v hv
      rcases v with _ | v
      · simpa using hv.symm
      · rcases v with _ | _ | _ | _ | _ | _ <;> simp at hv <;> exact hv.symm
    have he2 := hshape _ hfa
    fin_cases ha <;> (subst he2; decide)

/-- The `lastModified` block pushes only the missing-field message: the
timestamp branch is dead because `new Date` never throws. -/
theorem lastModifiedErrors_sub (data : JSValue) :
    ∀ e ∈ lastModifiedErrors data, e ∈ customFixedMsgs := by
  intro e he
  simp only [lastModifiedErrors] at he
  split at he
  · simp only [List.mem_singleton] at he
    subst he
    decide
  · simp only [jsNewDateThrows, Bool.false_eq_true, if_false] at he
    simp at he

/-- Every error the consistency check pushes is a fixed message. -/
theorem consistencyErrors_sub (data : JSValue) :
    ∀ e ∈ consistencyErrors data, e ∈ customFixedMsgs := by
  intro e he
  simp only [consistencyErrors] at he
  split at he
  · simp only [List.mem_singleton] at he
    subst he
    decide
  · simp at he

/-- Every error a `checkURL` call pushes carries the URL-error suffix. -/
theorem checkURLMsg_sub (urlOk : String → Bool) (u : JSValue) (f : String) :
    ∀ e ∈ checkURLMsg urlOk u f, ∃ s, e = s ++ urlMsgSuffix := by
  intro e he
  simp only [checkURLMsg] at he
  split at he
  · simp at he
  · simp only [List.mem_singleton] at he
    exact ⟨f, he⟩

/-- Every error of the feeds loop carries the URL-error suffix. -/
theorem goFeeds_sub (urlOk : String → Bool) (xs : List JSValue) (i : Nat) :
    ∀ e ∈ (goFeeds urlOk xs i).1, ∃ s, e = s ++ urlMsgSuffix := by
  induction xs generalizing i with
  | nil =>
    intro e he
    simp [goFeeds] at he
  | cons f rest ih =>
    intro e he
    simp only [goFeeds] at he
    split at he
    · simp at he
    · rcases List.mem_append.mp he with hl | hr
      · split at hl
        · split at hl
          · exact checkURLMsg_sub urlOk _ _ e hl
          · simp at hl
        · simp at hl
      · exact ih (i + 1) e hr

/-- Every error of the services loop carries the URL-error suffix. -/
theorem goServices_sub (urlOk : String → Bool) (xs : List JSValue) (i : Nat) :
    ∀ e ∈ (goServices urlOk xs i).1, ∃ s, e = s ++ urlMsgSuffix := by
  induction xs generalizing i with
  | nil =>
    intro e he
    simp [goServices] at he
  | cons f rest ih =>
    intro e he
    simp only [goServices] at he
    split at he
    · simp at he
    · rcases List.mem_append.mp he with hl | hr
      · split at hl
        · split at hl
          · exact checkURLMsg_sub urlOk _ _ e hl
          · simp at hl
        · simp at hl
      · exact ih (i + 1) e hr

/-- Every error the tip-jar check pushes carries the suffix. -/
theorem tipJarErrors_sub (urlOk : String → Bool) (mv : JSValue) :
    ∀ e ∈ tipJarErrors urlOk mv, ∃ s, e = s ++ urlMsgSuffix := by
  intro e he
  simp only [tipJarErrors] at he
  split at he
  · split at he
    · exact checkURLMsg_sub urlOk _ _ e he
    · simp at he
  · simp at he

/-- Every error the booking-URL check pushes carries the suffix. -/
theorem bookingUrlErrors_sub (urlOk : String → Bool) (mv : JSValue) :
    ∀ e ∈ bookingUrlErrors urlOk mv, ∃ s, e = s ++ urlMsgSuffix := by
  intro e he
  simp only [bookingUrlErrors] at he
  split at he
  · split at he
    · exact checkURLMsg_sub urlOk _ _ e he
    · simp at he
  · simp at he

/-- Every error of the services step carries the suffix. -/
theorem servicesStep_sub (urlOk : String → Bool) (mv : JSValue) :
    ∀ e ∈ (servicesStep urlOk mv).1, ∃ s, e = s ++ urlMsgSuffix := by
  intro e he
  simp only [servicesStep] at he
  split at he
  · split at he
    · split at he
      · exact goServices_sub urlOk _ 0 e he
      · simp at he
    · simp at he
  · simp at he

/-- Every error of the monetization URL checks carries the suffix. -/
theorem monetizationURLErrors_sub (urlOk : String → Bool) (data : JSValue) :
    ∀ e ∈ (monetizationURLErrors urlOk data).1, ∃ s, e = s ++ urlMsgSuffix := by
  intro e he
  simp only [monetizationURLErrors] at he
  split at he
  · simp at he
  · rcases List.mem_append.mp he with h1 | h2
    · rcases List.mem_append.mp h1 with h3 | h4
      · exact tipJarErrors_sub urlOk _ e h3
      · exact bookingUrlErrors_sub urlOk _ e h4
    · exact servicesStep_sub urlOk _ e h2

/-- Every error `validateURLs` pushes carries the URL-error suffix. -/
theorem validateURLsE_sub (urlOk : String → Bool) (data : JSValue) :
    ∀ e ∈ (validateURLsE urlOk data).1, ∃ s, e = s ++ urlMsgSuffix := by
  intro e he
  simp only [validateURLsE, andThenE] at he
  have hfeeds : ∀ e2 ∈ (feedsURLErrors urlOk data).1, ∃ s, e2 = s ++ urlMsgSuffix := by
    intro e2 he2
    unfold feedsURLErrors at he2
    split at he2
    · exact goFeeds_sub urlOk _ 0 e2 he2
    · simp at he2
  split at he
  · next es m heq =>
    have hes : es = (feedsURLErrors urlOk data).1 := (congrArg Prod.fst heq).symm
    exact hfeeds e (hes ▸ he)
  · next es heq =>
    rcases List.mem_append.mp he with h1 | h2
    · have hes : es = (feedsURLErrors urlOk data).1 := (congrArg Prod.fst heq).symm
      exact hfeeds e (hes ▸ h1)
    · exact monetizationURLErrors_sub urlOk data e h2

/-- Every error the structural pass pushes is either one of the fixed
messages or a field path followed by the URL-error suffix; in particular
the timestamp message of the dead catch branch never occurs. -/
theorem addCustom_errors_shape (urlOk : String → Bool) (data : JSValue) :
    ∀ e ∈ (addCustomValidationE urlOk data).1,
      e ∈ customFixedMsgs ∨ ∃ s, e = s ++ urlMsgSuffix := by
  intro e he
  simp only [addCustomValidationE] at he
  split at he
  · simp at he
  · split at he
    · exact Or.inl (versionErrors_sub data e he)
    · split at he
      · rcases List.mem_append.mp he with h1 | h2
        · rcases List.mem_append.mp h1 with h3 | h4
          · rcases List.mem_append.mp h3 with h5 | h6
            · rcases List.mem_append.mp h5 with h7 | h8
              · exact Or.inl (versionErrors_sub data e h7)
              · exact Or.inl (siteNameErrors_sub data e h8)
            · exact Or.inl (policyErrors_sub data e h6)
          · exact Or.inl (lastModifiedErrors_sub data e h4)
        · exact Or.inr (validateURLsE_sub urlOk data e h2)
      · rcases List.mem_append.mp he with h1 | h2
        · rcases List.mem_append.mp h1 with h3 | h4
          · rcases List.mem_append.mp h3 with h5 | h6
            · rcases List.mem_append.mp h5 with h7 | h8
              · rcases List.mem_append.mp h7 with h9 | h10
                · exact Or.inl (versionErrors_sub data e h9)
                · exact Or.inl (siteNameErrors_sub data e h10)
              · exact Or.inl (policyErrors_sub data e h8)
            · exact Or.inl (lastModifiedErrors_sub data e h6)
          · exact Or.inr (validateURLsE_sub urlOk data e h4)
        · exact Or.inl (consistencyErrors_sub data e h2)

/-- One URL check equals filtering the corresponding collected field. -/
theorem filterMap_single_urlField (urlOk : String → Bool) (f : String) (u : JSValue) :
    List.filterMap (urlFieldError urlOk) [(f, u)] = checkURLMsg urlOk u f := by
  simp only [List.filterMap_cons, List.filterMap_nil, urlFieldError, checkURLMsg, urlMsgSuffix]
  by_cases hok : urlOk (jsToString u)
  · simp [hok]
  · simp [hok]

/-- On a well-shaped feeds list, the loop throws nothing and produces
exactly the errors of the invalid collected fields, in order. -/
theorem goFeeds_eq (urlOk : String → Bool) (xs : List JSValue) (i : Nat)
    (h : xs.all (fun x => !x.isNull) = true) :
    goFeeds urlOk xs i = ((feedURLFields xs i).filterMap (urlFieldError urlOk), none) := by
  induction xs generalizing i with
  | nil => rfl
  | cons f rest ih =>
    simp only [List.all_cons, Bool.and_eq_true] at h
    have hf : f.isNull = false := by
      cases hh : f.isNull
      · rfl
      · rw [hh] at h; simp at h
    simp only [goFeeds, hf, Bool.false_eq_true, if_false, feedURLFields]
    rw [ih (i + 1) h.2, List.filterMap_append]
    cases hfu : fieldOf f "url" with
    | none => simp [hfu]
    | some u =>
      by_cases ht : truthy u
      · simp only [hfu, ht, if_true]
        rw [← filterMap_single_urlField urlOk _ u]
      · simp [hfu, ht]

/-- On a well-shaped services list, the loop throws nothing and produces
exactly the errors of the invalid collected fields, in order. -/
theorem goServices_eq (urlOk : String → Bool) (xs : List JSValue) (i : Nat)
    (h : xs.all (fun x => !x.isNull) = true) :
    goServices urlOk xs i = ((serviceURLFields xs i).filterMap (urlFieldError urlOk), none) := by
  induction xs generalizing i with
  | nil => rfl
  | cons f rest ih =>
    simp only [List.all_cons, Bool.and_eq_true] at h
    have hf : f.isNull = false := by
      cases hh : f.isNull
      · rfl
      · rw [hh] at h; simp at h
    simp only [goServices, hf, Bool.false_eq_true, if_false, serviceURLFields]
    rw [ih (i + 1) h.2, List.filterMap_append]
    cases hfu : fieldOf f "url" with
    | none => simp [hfu]
    | some u =>
      by_cases ht : truthy u
      · simp only [hfu, ht, if_true]
        rw [← filterMap_single_urlField urlOk _ u]
      · simp [hfu, ht]

/-- The feeds part, on well-shaped input, equals the filtered collected
fields and throws nothing. -/
theorem feedsURLErrors_eq (urlOk : String → Bool) (data : JSValue)
    (h : feedsSafe data = true) :
    feedsURLErrors urlOk data =
      ((feedsURLFieldsOf data).filterMap (urlFieldError urlOk), none) := by
  unfold feedsURLErrors feedsURLFieldsOf
  unfold feedsSafe at h
  split
  · next xs heq =>
    rw [heq] at h
    exact goFeeds_eq urlOk xs 0 h
  · rfl

/-- The tip-jar check equals the filtered collected tip-jar field. -/
theorem tipJarErrors_eq (urlOk : String → Bool) (mv : JSValue) :
    tipJarErrors urlOk mv =
      (match fieldOf mv "tipJar" with
       | some t => if truthy t then [("monetization.tipJar", t)] else []
       | none => []).filterMap (urlFieldError urlOk) := by
  unfold tipJarErrors
  cases hfu : fieldOf mv "tipJar" with
  | none => rfl
  | some t =>
    by_cases ht : truthy t
    · simp only [ht, if_true]
      rw [filterMap_single_urlField]
    · simp [ht]

/-- The booking-URL check equals the filtered collected booking field. -/
theorem bookingUrlErrors_eq (urlOk : String → Bool) (mv : JSValue) :
    bookingUrlErrors urlOk mv =
      (match optField (fieldOf mv "consultation") "bookingUrl" with
       | some b => if truthy b then [("monetization.consultation.bookingUrl", b)] else []
       | none => []).filterMap (urlFieldError urlOk) := by
  unfold bookingUrlErrors
  cases hfu : optField (fieldOf mv "consultation") "bookingUrl" with
  | none => rfl
  | some b =>
    by_cases ht : truthy b
    · simp only [ht, if_true]
      rw [filterMap_single_urlField]
    · simp [ht]

/-- The monetization part, on well-shaped input, equals the filtered
collected fields and throws nothing. -/
theorem monetizationURLErrors_eq (urlOk : String → Bool) (data : JSValue)
    (h : servicesSafe data = true) :
    monetizationURLErrors urlOk data =
      ((monetizationURLFieldsOf data).filterMap (urlFieldError urlOk), none) := by
  unfold servicesSafe at h
  by_cases hm : truthyO (fieldOf data "monetization")
  · simp only [hm, Bool.not_true, Bool.false_eq_true, if_false] at h
    have hsv : servicesStep urlOk ((fieldOf data "monetization").getD .null) =
        ((match fieldOf ((fieldOf data "monetization").getD .null) "services" with
          | some (.arr xs) => serviceURLFields xs 0
          | _ => []).filterMap (urlFieldError urlOk), none) := by
      unfold servicesStep
      cases hfs : fieldOf ((fieldOf data "monetization").getD .null) "services" with
      | none => rfl
      | some sv =>
        rw [hfs] at h
        dsimp only at h ⊢
        by_cases ht : truthy sv
        · cases sv with
          | arr xs =>
            rw [ht] at h
            simp only [if_true] at h
            simp only [ht, if_true]
            exact goServices_eq urlOk xs 0 h
          | null => simp [truthy] at ht
          | bool b => rw [ht] at h; simp at h
          | num n => rw [ht] at h; simp at h
          | str s => rw [ht] at h; simp at h
          | obj fs => rw [ht] at h; simp at h
        · have ht2 : truthy sv = false := Bool.eq_false_iff.mpr ht
          cases sv with
          | arr xs => simp [truthy] at ht2
          | null => simp [ht2]
          | bool b => simp [ht2]
          | num n => simp [ht2]
          | str s => simp [ht2]
          | obj fs => simp [truthy] at ht2
    unfold monetizationURLErrors monetizationURLFieldsOf
    simp only [hm, Bool.not_true, Bool.false_eq_true, if_false]
    rw [hsv]
    rw [List.filterMap_append, List.filterMap_append, tipJarErrors_eq, bookingUrlErrors_eq]
  · unfold monetizationURLErrors monetizationURLFieldsOf
    have hm2 : truthyO (fieldOf data "monetization") = false := Bool.eq_false_iff.mpr hm
    simp [hm2]

/-- On well-shaped input the whole URL pass throws nothing and produces
exactly the errors of the invalid covered fields, in source order. -/
theorem validateURLsE_eq (urlOk : String → Bool) (data : JSValue)
    (h : urlPassSafe data = true) :
    validateURLsE urlOk data =
      ((urlFieldsOf data).filterMap (urlFieldError urlOk), none) := by
  unfold urlPassSafe at h
  rw [Bool.and_eq_true] at h
  unfold validateURLsE andThenE urlFieldsOf
  rw [feedsURLErrors_eq urlOk data h.1]
  dsimp only
  rw [monetizationURLErrors_eq urlOk data h.2]
  rw [List.filterMap_append]

/-- A Boolean whose negation is true is false. -/
theorem bnot_true {b : Bool} (h : (!b) = true) : b = false := by
  cases b
  · rfl
  · simp at h

/-- On a manifest whose `version`, when truthy, is a string, the version
block does not throw. -/
theorem versionErrors_safe (data : JSValue) (h : versionFieldSafe data = true) :
    (versionErrors data).2 = none := by
  unfold versionFieldSafe at h
  unfold versionErrors
  cases hv : fieldOf data "version" with
  | none => rfl
  | some v =>
    rw [hv] at h
    cases v with
    | str s =>
      by_cases ht : truthyO (some (.str s))
      · simp [ht]
      · have h2 := Bool.eq_false_iff.mpr ht
        simp [h2]
    | null => simp [truthyO, truthy]
    | bool b =>
      dsimp only at h
      have hb : truthy (.bool b) = false := bnot_true h
      simp [truthyO, hb]
    | num n =>
      dsimp only at h
      have hb : truthy (.num n) = false := bnot_true h
      simp [truthyO, hb]
    | arr xs =>
      dsimp only at h
      have hb : truthy (.arr xs) = false := bnot_true h
      simp [truthyO, hb]
    | obj fs =>
      dsimp only at h
      have hb : truthy (.obj fs) = false := bnot_true h
      simp [truthyO, hb]

/-- On a well-shaped manifest the structural pass completes without a
throw, its error list is the concatenation of the blocks in source order,
and its warnings are exactly the consistency warnings. -/
theorem addCustom_safe_eq (urlOk : String → Bool) (data : JSValue)
    (h : customPassSafe data = true) :
    addCustomValidationE urlOk data =
      ((versionErrors data).1 ++ siteNameErrors data ++ policyErrors data ++
        lastModifiedErrors data ++ (urlFieldsOf data).filterMap (urlFieldError urlOk) ++
        consistencyErrors data, consistencyWarnings data, none) := by
  unfold customPassSafe at h
  rw [Bool.and_eq_true, Bool.and_eq_true] at h
  obtain ⟨⟨hnn, hver⟩, hurl⟩ := h
  have hnn2 : data.isNull = false := bnot_true hnn
  unfold addCustomValidationE
  rw [hnn2]
  simp only [Bool.false_eq_true, if_false]
  rw [versionErrors_safe data hver]  -- hmm: rewrites the match scrutinee
  dsimp only
  rw [validateURLsE_eq urlOk data hurl]

/-- Claim C1 (amended): the dedicated URL pass covers exactly the fields
collected by `urlFieldsOf` — `feeds[i].url`, `monetization.tipJar`,
`monetization.consultation.bookingUrl`, `monetization.services[i].url` —
and, on well-shaped input, produces exactly one error naming the exact
field path (with array index) for each covered field whose value does not
parse as an absolute URL; each covered field set to a value that parses
contributes no error, and if all covered values parse, no URL error is
produced at all.  Other URL-valued fields (`access.loginUrl`,
`access.subscriptionUrl`, `monetization.subscription.url`,
`renderHints.callToAction.url`) are not covered. -/
theorem claim1_url_validation_coverage (urlOk : String → Bool) (data : JSValue)
    (h : urlPassSafe data = true) :
    validateURLsE urlOk data =
      ((urlFieldsOf data).filterMap (urlFieldError urlOk), none) ∧
    (∀ p ∈ urlFieldsOf data, urlOk (jsToString p.2) = false →
      (p.1 ++ urlMsgSuffix) ∈ (validateURLsE urlOk data).1) ∧
    ((∀ p ∈ urlFieldsOf data, urlOk (jsToString p.2) = true) →
      (validateURLsE urlOk data).1 = []) := by
  have heq := validateURLsE_eq urlOk data h
  refine ⟨heq, ?_, ?_⟩
  · intro p hp hbad
    rw [heq]
    exact List.mem_filterMap.mpr ⟨p, hp, by simp [urlFieldError, hbad]⟩
  · intro hall
    rw [heq]
    simp only
    rw [List.filterMap_eq_nil_iff]
    intro p hp
    simp [urlFieldError, hall p hp]

/-- Claim C1 witness: a manifest with an invalid feed URL, a valid tip-jar
URL and an invalid service URL produces exactly the two errors for the
invalid covered fields. -/
theorem claim1_witness :
    (validateURLsE urlOkImpl manifestMixedUrls =
      ((urlFieldsOf manifestMixedUrls).filterMap (urlFieldError urlOkImpl), none)) ∧
    (validateURLsE urlOkImpl manifestMixedUrls).1 =
      ["feeds[0].url must be a valid absolute URL",
       "monetization.services[0].url must be a valid absolute URL"] :=
  ⟨(claim1_url_validation_coverage urlOkImpl manifestMixedUrls (by decide)).1, by decide⟩

/-- Claim C1 counterexample: a manifest whose `access.loginUrl` is the
malformed string `"not-a-url"` is not covered by the URL pass (no covered
field collected, no structural error at all), and the full validation —
with the schema layer reporting nothing, as the built-in fallback schema
imposes no constraint on `access` — accepts the document, contradicting
the claim that every nested URL-valued field is checked. -/
theorem claim1_access_loginUrl_unchecked :
    urlOkImpl "not-a-url" = false ∧
    urlFieldsOf manifestBadLoginUrl = [] ∧
    (addCustomValidationE urlOkImpl manifestBadLoginUrl).1 = [] ∧
    (validate urlOkImpl (fun _ _ => []) (fun _ => .netFail "offline") none []
        (.ok manifestBadLoginUrl) none).1.valid = true := by
  refine ⟨by decide, rfl, by decide, by decide⟩

/-- Claim C5: the structural pass never emits the timestamp error — the
catch branch around `new Date(data.lastModified)` is dead code because
`new Date` does not throw on unparseable strings — and on the concrete
failing input (valid manifest, `lastModified: "definitely-not-a-date"`)
the pass produces no error, no warning and no throw, instead of failing
as the claim requires. -/
theorem claim5_dead_timestamp_check :
    (∀ (urlOk : String → Bool) (data : JSValue),
      timestampErrMsg ∉ (addCustomValidationE urlOk data).1) ∧
    addCustomValidationE urlOkImpl manifestBadDate = ([], [], none) := by
  constructor
  · intro urlOk data hmem
    rcases addCustom_errors_shape urlOk data _ hmem with hfix | ⟨s, hs⟩
    · revert hfix
      decide
    · exact urlSuffix_ne_timestamp s hs.symm
  · rfl

/-- Claim C8: on every well-shaped manifest with
`defaultUsagePolicy.canSummarize === false` and
`visibility.aiDiscovery === "enhanced"`, validation appends the
conflicting-settings entry to the warnings and never to the errors
(provided the schema layer does not itself produce that exact string,
which no JSON-Schema violation message does), and validity is exactly
emptiness of the error list — warnings never affect it. -/
theorem claim8_conflict_warning (urlOk : String → Bool)
    (ajv : JSValue → JSValue → List String) (fetchO : String → SchemaFetchOutcome)
    (ctor : Option String) (cache : List (String × JSValue)) (override : Option String)
    (data : JSValue)
    (h1 : isFalseLit (optChain data "defaultUsagePolicy" "canSummarize") = true)
    (h2 : isStrEq (optChain data "visibility" "aiDiscovery") "enhanced" = true)
    (hsafe : customPassSafe data = true)
    (hajv : conflictingSettingsMsg ∉ ajv (loadSchema fetchO ctor cache override).1 data) :
    conflictingSettingsMsg ∈
      (validate urlOk ajv fetchO ctor cache (.ok data) override).1.warnings ∧
    conflictingSettingsMsg ∉
      (validate urlOk ajv fetchO ctor cache (.ok data) override).1.errors ∧
    (validate urlOk ajv fetchO ctor cache (.ok data) override).1.valid =
      (validate urlOk ajv fetchO ctor cache (.ok data) override).1.errors.isEmpty := by
  have hc := addCustom_safe_eq urlOk data hsafe
  have hval : (validate urlOk ajv fetchO ctor cache (.ok data) override).1 =
      { valid := (ajv (loadSchema fetchO ctor cache override).1 data ++
          (addCustomValidationE urlOk data).1).isEmpty,
        errors := ajv (loadSchema fetchO ctor cache override).1 data ++
          (addCustomValidationE urlOk data).1,
        warnings := consistencyWarnings data,
        suggestions := addSuggestions data,
        manifest := some data } := by
    simp only [validate, hc]
  refine ⟨?_, ?_, ?_⟩
  · rw [hval]
    show conflictingSettingsMsg ∈ consistencyWarnings data
    unfold consistencyWarnings
    rw [h1, h2]
    simp only [Bool.and_self, if_true]
    exact List.mem_append_left _ (List.mem_append_left _ (List.mem_singleton_self _))
  · rw [hval]
    intro hmem
    rcases List.mem_append.mp hmem with hl | hr
    · exact hajv hl
    · rcases addCustom_errors_shape urlOk data _ hr with hfix | ⟨s, hs⟩
      · revert hfix
        decide
      · exact urlSuffix_ne_conflict s hs.symm
  · rw [hval]

/-- Claim C8 witness: the concrete conflicting manifest yields the warning
and stays valid under the (no-error) schema layer. -/
theorem claim8_witness :
    conflictingSettingsMsg ∈ (validate urlOkImpl (fun _ _ => []) (fun _ => .netFail "offline")
      none [] (.ok manifestConflict) none).1.warnings ∧
    conflictingSettingsMsg ∉ (validate urlOkImpl (fun _ _ => []) (fun _ => .netFail "offline")
      none [] (.ok manifestConflict) none).1.errors ∧
    (validate urlOkImpl (fun _ _ => []) (fun _ => .netFail "offline")
      none [] (.ok manifestConflict) none).1.valid =
    (validate urlOkImpl (fun _ _ => []) (fun _ => .netFail "offline")
      none [] (.ok manifestConflict) none).1.errors.isEmpty :=
  claim8_conflict_warning urlOkImpl (fun _ _ => []) (fun _ => .netFail "offline")
    none [] none manifestConflict (by decide) (by decide) (by decide) (by simp)

end ContentMark
